import Mathlib

/-!
Verification of the watchman test-runner script (`runtests.py`).

The script's selection, discovery-filtering, expansion, reporting and
teardown logic is embedded below as executable Lean definitions, translated
line by line from the Python source; the claims of the specification are
then settled as theorems about these definitions.
-/

set_option autoImplicit false

namespace Runtests

/-! ### Python string primitives used by the script

`filename.replace('.pyc', '.py')` (source line 134) replaces every
left-to-right, non-overlapping occurrence of the substring `.pyc` with
`.py` — not only a trailing occurrence.  `name.split('.')` (source line
152) splits on every dot, producing at least one (possibly empty)
component; `.pop()` takes the last component. -/

/-- Embedding of Python's `s.replace('.pyc', '.py')`: scan left to right,
replacing each non-overlapping occurrence of `.pyc` by `.py`. -/
def replacePyc : List Char → List Char
  | '.' :: 'p' :: 'y' :: 'c' :: rest => '.' :: 'p' :: 'y' :: replacePyc rest
  | c :: rest => c :: replacePyc rest
  | [] => []

/-- Whether the four-character substring `.pyc` occurs anywhere. -/
def hasPycSub : List Char → Bool
  | '.' :: 'p' :: 'y' :: 'c' :: _ => true
  | _ :: rest => hasPycSub rest
  | [] => false

/-- `filename.replace('.pyc', '.py')` on `String`s. -/
def pycToPy (s : String) : String := String.mk (replacePyc s.data)

/-- Helper for `splitDot`: prepend a character to the first component. -/
def consHead (c : Char) : List (List Char) → List (List Char)
  | [] => [[c]]
  | s :: ss => (c :: s) :: ss

/-- Embedding of Python's `s.split('.')`: every dot separates components,
and the empty string splits to one empty component. -/
def splitDot : List Char → List (List Char)
  | [] => [[]]
  | c :: rest =>
    if c = '.' then [] :: splitDot rest
    else consHead c (splitDot rest)

/-- `name.split('.').pop()`: the final dot-delimited component. -/
def lastDot (s : String) : String :=
  String.mk ((splitDot s.data).getLastD [])

/-! ### POSIX path functions (`os.path`) used by the script

`os.path.relpath(p)` relativises `p` against the current working
directory; it is a pure string computation once the working directory is
fixed, so the working directory is passed explicitly as `cwd` (assumed to
be an absolute path, as `os.getcwd()` returns).  The character-level
splitting and joining primitives are spelled out structurally. -/

/-- Python's `s.startswith(pre)`. -/
def pyStartsWith (s pre : String) : Bool := pre.data.isPrefixOf s.data

/-- Python's `s.endswith(suffix)`. -/
def pyEndsWith (s suffix : String) : Bool := suffix.data.isSuffixOf s.data

/-- Helper for `splitSlash`: prepend a character to the first component. -/
def consHeadStr (c : Char) : List String → List String
  | [] => [String.mk [c]]
  | s :: ss => String.mk (c :: s.data) :: ss

/-- Python's `s.split('/')`: every slash separates components, and the
empty string splits to one empty component. -/
def splitSlash : List Char → List String
  | [] => [""]
  | c :: rest =>
    if c = '/' then "" :: splitSlash rest
    else consHeadStr c (splitSlash rest)

/-- `'/'.join(comps)` for slash-free components. -/
def joinSlash : List String → String
  | [] => ""
  | [s] => s
  | s :: rest => s ++ "/" ++ joinSlash rest

/-- `os.path.isabs`. -/
def isAbs (p : String) : Bool := pyStartsWith p "/"

/-- `os.path.join` on two components. -/
def posixJoin2 (a b : String) : String :=
  if isAbs b then b
  else if a = "" ∨ pyEndsWith a "/" = true then a ++ b
  else a ++ "/" ++ b

/-- The component-collapsing loop of `posixpath.normpath`. -/
def normpathComps (initialSlashes : Nat) (comps : List String) : List String :=
  comps.foldl
    (fun acc comp =>
      if comp = "" ∨ comp = "." then acc
      else if comp ≠ ".." ∨ (initialSlashes = 0 ∧ acc = []) ∨ acc.getLastD "" = ".." then
        acc ++ [comp]
      else acc.dropLast)
    []

/-- `posixpath.normpath`. -/
def normpath (p : String) : String :=
  if p = "" then "."
  else
    let initialSlashes : Nat :=
      if pyStartsWith p "/" then
        (if pyStartsWith p "//" = true ∧ ¬ pyStartsWith p "///" = true then 2 else 1)
      else 0
    let newComps := normpathComps initialSlashes (splitSlash p.data)
    let res := String.mk (List.replicate initialSlashes '/') ++ joinSlash newComps
    if res = "" then "." else res

/-- `posixpath.abspath`, with the working directory made explicit. -/
def abspath (cwd p : String) : String :=
  if isAbs p then normpath p else normpath (posixJoin2 cwd p)

/-- Nonempty `/`-separated components of a path. -/
def splitParts (s : String) : List String :=
  (splitSlash s.data).filter (fun x => x ≠ "")

/-- Length of the common prefix of two component lists. -/
def commonPrefixLen : List String → List String → Nat
  | a :: as, b :: bs => if a = b then commonPrefixLen as bs + 1 else 0
  | _, _ => 0

/-- `posixpath.relpath(p)` against the working directory `cwd`. -/
def relpath (cwd p : String) : String :=
  let startList := splitParts (abspath cwd ".")
  let pathList := splitParts (abspath cwd p)
  let i := commonPrefixLen startList pathList
  let relList := List.replicate (startList.length - i) ".." ++ pathList.drop i
  if relList = [] then "." else joinSlash relList

/-- Source line 134: `fname = os.path.relpath(filename.replace('.pyc', '.py'))`. -/
def fnameOf (cwd filename : String) : String := relpath cwd (pycToPy filename)

/-! ### Parsed configuration (`args`)

`argparse` yields `args.files` (positional, possibly empty), `args.method`
(repeatable `--method`; absent is modelled, like Python's `None`, by the
empty list — both are falsy), `args.keep` and `args.verbosity`. -/

structure Args where
  files : List String
  method : List String
  keep : Bool
  verbosity : Nat

/-! ### Inclusion predicates (source lines 131-157) -/

/-- Source lines 131-146, `shouldIncludeTestFile`:
normalize the filename, then if `args.files` is non-empty include exactly
the listed files; else if `args.method` is non-empty include only `.py`
files; else include everything. -/
def shouldIncludeTestFile (cwd : String) (args : Args) (filename : String) : Bool :=
  let fname := fnameOf cwd filename
  if args.files ≠ [] then args.files.contains fname
  else if args.method ≠ [] then pyEndsWith fname ".py"
  else true

/-- Source lines 148-157, `shouldIncludeTestName`:
if `args.method` is non-empty, include exactly the names whose final
dot-component (`name.split('.').pop()`) is listed. -/
def shouldIncludeTestName (args : Args) (name : String) : Bool :=
  if args.method ≠ [] then args.method.contains (lastDot name)
  else true

/-! ### Filesystem model and `expandFilesList` (source lines 114-128)

The script touches the filesystem only through `os.path.isdir(g)` and
`os.walk(g)`.  A directory tree is a list of named entries; the ambient
filesystem is an association list from directory path to its entries, so
`isdir g` holds exactly when `g` is a key.  `os.walk` is top-down: it
yields the root's file names first (in listing order), then recurses into
each subdirectory in listing order. -/

mutual
inductive Entry where
  | file (name : String)
  | dir (name : String) (children : EntryList)
inductive EntryList where
  | nil
  | cons (e : Entry) (rest : EntryList)
end

/-- The file names of a directory listing, in order (`os.walk`'s `files`). -/
def listFileNames : EntryList → List String
  | EntryList.nil => []
  | EntryList.cons (Entry.file n) rest => n :: listFileNames rest
  | EntryList.cons (Entry.dir _ _) rest => listFileNames rest

/-- The recursive part of `os.walk`: the `(dirpath, filenames)` tuples of
every subdirectory of `path` whose listing is the argument, in traversal
order. -/
def walkChildren (path : String) : EntryList → List (String × List String)
  | EntryList.nil => []
  | EntryList.cons (Entry.file _) rest => walkChildren path rest
  | EntryList.cons (Entry.dir n cs) rest =>
    ((posixJoin2 path n, listFileNames cs) :: walkChildren (posixJoin2 path n) cs)
      ++ walkChildren path rest

/-- `os.walk(path)` for a directory with listing `cs`: the root's tuple,
then the subdirectories' tuples top-down. -/
def walkDir (path : String) (cs : EntryList) : List (String × List String) :=
  (path, listFileNames cs) :: walkChildren path cs

/-- The inner loop of `expandFilesList` (source lines 119-122): for each
walk tuple, append `os.path.join(dirname, f)` for every file name not
beginning with `.`. -/
def expandTuples (ts : List (String × List String)) : List String :=
  ts.flatMap fun pr =>
    (pr.2.filter fun f => !pyStartsWith f ".").map fun f => posixJoin2 pr.1 f

/-- The whole `os.walk(g)` loop body for one directory selector. -/
def expandDir (g : String) (cs : EntryList) : List String :=
  expandTuples (walkDir g cs)

/-- `os.path.isdir` through the association-list filesystem: the listing of
directory `g`, when `g` names a directory. -/
def lookupDir (fs : List (String × EntryList)) (g : String) : Option EntryList :=
  (fs.find? fun pr => pr.1 = g).map fun pr => pr.2

/-- Source lines 114-125, `expandFilesList`: note the body iterates the
global `args.files` (here the `argsFiles` parameter), not the ` files`
parameter it was handed, which is never read. -/
def expandFilesList (fs : List (String × EntryList)) (argsFiles : List String)
    (files : List String) : List String :=
  argsFiles.flatMap fun g =>
    match lookupDir fs g with
    | some cs => expandDir g cs
    | none => [g]

/-! Specification-side description of the expansion, for comparison: all
files of the selected directory's recursive subtree, as
`(joined path, basename)` pairs in traversal order. -/

/-- All files strictly below `path` (whose listing is the argument), as
`(full path, basename)` pairs in `os.walk` traversal order. -/
def subtreeFilesAux (path : String) : EntryList → List (String × String)
  | EntryList.nil => []
  | EntryList.cons (Entry.file _) rest => subtreeFilesAux path rest
  | EntryList.cons (Entry.dir n cs) rest =>
    ((listFileNames cs).map fun f => (posixJoin2 (posixJoin2 path n) f, f))
      ++ subtreeFilesAux (posixJoin2 path n) cs ++ subtreeFilesAux path rest

/-- All files of the subtree rooted at `path` (listing `cs`), root files
first, in traversal order. -/
def subtreeFiles (path : String) (cs : EntryList) : List (String × String) :=
  ((listFileNames cs).map fun f => (posixJoin2 path f, f)) ++ subtreeFilesAux path cs

/-- What the specification says one selector expands to: for a directory,
the non-hidden files of its subtree in traversal order; otherwise the
selector itself, unchanged. -/
def specExpandOne (fs : List (String × EntryList)) (g : String) : List String :=
  match lookupDir fs g with
  | some cs => ((subtreeFiles g cs).filter fun pr => !pyStartsWith pr.2 ".").map Prod.fst
  | none => [g]

/-! ### Result reporter (source lines 66-111)

Wall-clock instants are modelled in milliseconds; `%.3f` applied to a
nonnegative elapsed time of whole milliseconds prints the seconds with
exactly three decimal places. -/

structure ResultState where
  transport : Option String
  encoding : Option String
  startTime : Nat

/-- `startTest` records the start time. -/
def startTest (r : ResultState) (now : Nat) : ResultState :=
  ⟨r.transport, r.encoding, now⟩

/-- `setFlavour` stores the transport/encoding annotation. -/
def setFlavour (r : ResultState) (t e : Option String) : ResultState :=
  ⟨t, e, r.startTime⟩

/-- Python truthiness of an optional string (`None` and `''` are falsy). -/
def pyTruthyOpt : Option String → Bool
  | none => false
  | some s => s ≠ ""

/-- `'%s' % x` for an optional string (`None` prints as `None`). -/
def renderOpt : Option String → String
  | none => "None"
  | some s => s

/-- Source lines 81-84, `flavour`: annotate the test id with transport and
encoding when a transport has been set. -/
def flavour (r : ResultState) (testId : String) : String :=
  if pyTruthyOpt r.transport then
    testId ++ " [" ++ renderOpt r.transport ++ ", " ++ renderOpt r.encoding ++ "]"
  else testId

/-- Three decimal digits, zero-padded. -/
def pad3 (n : Nat) : String :=
  if n < 10 then "00" ++ toString n
  else if n < 100 then "0" ++ toString n
  else toString n

/-- `'%.3f' % elapsed` for an elapsed time of `ms` whole milliseconds. -/
def fmtElapsed (ms : Nat) : String :=
  toString (ms / 1000) ++ "." ++ pad3 (ms % 1000)

/-- Source line 89, the `addSuccess` print. -/
def addSuccessLine (r : ResultState) (testId : String) (now : Nat) : String :=
  "\x1b[32mPASS\x1b[0m " ++ flavour r testId ++ " (" ++ fmtElapsed (now - r.startTime) ++ "s)"

/-- Source lines 94-95, the `addSkip` print. -/
def addSkipLine (r : ResultState) (testId : String) (now : Nat) (reason : String) : String :=
  "\x1b[33mSKIP\x1b[0m " ++ flavour r testId ++ " (" ++ fmtElapsed (now - r.startTime) ++ "s) "
    ++ reason

/-- Source lines 97-103, the `__printFail` print; `tb` stands for the
string `''.join(traceback.format_exception(t, val, trace))`. -/
def printFailLine (r : ResultState) (testId : String) (now : Nat) (tb : String) : String :=
  "\x1b[31mFAIL\x1b[0m " ++ flavour r testId ++ " (" ++ fmtElapsed (now - r.startTime) ++ "s)\n"
    ++ tb

/-- `addFailure` prints through `__printFail`. -/
def addFailureLine (r : ResultState) (testId : String) (now : Nat) (tb : String) : String :=
  printFailLine r testId now tb

/-- `addError` prints through `__printFail` as well. -/
def addErrorLine (r : ResultState) (testId : String) (now : Nat) (tb : String) : String :=
  printFailLine r testId now tb

/-- The four terminal notifications a test unit can deliver. -/
inductive TerminalKind where
  | success
  | failure (tb : String)
  | error (tb : String)
  | skipped (reason : String)

/-- The output the reporter emits for one terminal notification: exactly
the one print call of the corresponding `Result` method. -/
def emit (r : ResultState) (testId : String) (now : Nat) : TerminalKind → List String
  | TerminalKind.success => [addSuccessLine r testId now]
  | TerminalKind.failure tb => [addFailureLine r testId now tb]
  | TerminalKind.error tb => [addErrorLine r testId now tb]
  | TerminalKind.skipped reason => [addSkipLine r testId now reason]

/-- The colored status token the specification assigns to each outcome. -/
def statusToken : TerminalKind → String
  | TerminalKind.success => "\x1b[32mPASS\x1b[0m"
  | TerminalKind.failure _ => "\x1b[31mFAIL\x1b[0m"
  | TerminalKind.error _ => "\x1b[31mFAIL\x1b[0m"
  | TerminalKind.skipped _ => "\x1b[33mSKIP\x1b[0m"

/-! ### Process exit status and sandbox teardown (source lines 49-56, 187-190) -/

/-- Terminal outcome of a test unit. -/
inductive Outcome where
  | passed
  | failed
  | errored
  | skipped
deriving DecidableEq

/-- A unit counts toward overall success when it passed or was skipped. -/
def isGood : Outcome → Bool
  | Outcome.passed => true
  | Outcome.skipped => true
  | _ => false

/-- The Run Summary's overall success flag: every unit passed or skipped. -/
def runSummaryAllPassed (os : List Outcome) : Bool := os.all isGood

/-- Source lines 187-190: the script builds `unittest.TextTestRunner(...)`
and calls `.run(suite)`; the returned result object is discarded and the
script ends, so the interpreter exits with status 0 whatever the
outcomes were — no `sys.exit` ever consults them. -/
def processExitCode (results : List Outcome) : Nat := 0

/-- An action registered to run at process exit. -/
inductive ExitAction where
  | removeTree (path : String)
  | writeMsg (msg : String)
deriving DecidableEq

/-- Source lines 50-54: with `--keep`, register printing
`'Preserving output in %s\n' % temp_dir`; otherwise register
`shutil.rmtree(temp_dir)`. -/
def registerTeardown (keep : Bool) (tempDir : String) : List ExitAction :=
  if keep then [ExitAction.writeMsg ("Preserving output in " ++ tempDir ++ "\n")]
  else [ExitAction.removeTree tempDir]

/-! ### Helper lemmas -/

theorem getLastD_irrel {α : Type} (l : List α) (h : l ≠ []) (d₁ d₂ : α) :
    l.getLastD d₁ = l.getLastD d₂ := by
  cases l with
  | nil => exact absurd rfl h
  | cons a t => rw [List.getLastD_cons, List.getLastD_cons]

theorem consHead_ne_nil (c : Char) (l : List (List Char)) : consHead c l ≠ [] := by
  cases l <;> simp [consHead]

theorem splitDot_ne_nil (l : List Char) : splitDot l ≠ [] := by
  cases l with
  | nil => simp [splitDot]
  | cons c rest =>
    by_cases h : c = '.' <;> simp [splitDot, h, consHead_ne_nil]

theorem splitDot_dot_append_length (r m : List Char) :
    2 ≤ (splitDot (r ++ '.' :: m)).length := by
  induction r with
  | nil =>
    have h := List.length_pos.mpr (splitDot_ne_nil m)
    simp [splitDot]
    omega
  | cons c r ih =>
    by_cases h : c = '.'
    · subst h
      have h2 := List.length_pos.mpr (splitDot_ne_nil (r ++ '.' :: m))
      simp [splitDot]
      omega
    · cases hs : splitDot (r ++ '.' :: m) with
      | nil => exact absurd hs (splitDot_ne_nil _)
      | cons s ss =>
        rw [hs] at ih
        simp [splitDot, h, hs, consHead]
        simp at ih
        omega

theorem splitDot_dot_append_getLastD (r m : List Char) :
    (splitDot (r ++ '.' :: m)).getLastD [] = (splitDot m).getLastD [] := by
  induction r with
  | nil =>
    have e : splitDot ('.' :: m) = [] :: splitDot m := rfl
    rw [List.nil_append, e, List.getLastD_cons]
  | cons c r ih =>
    by_cases h : c = '.'
    · subst h
      have e : splitDot ('.' :: (r ++ '.' :: m)) = [] :: splitDot (r ++ '.' :: m) := rfl
      rw [List.cons_append, e, List.getLastD_cons]
      exact ih
    · cases hs : splitDot (r ++ '.' :: m) with
      | nil => exact absurd hs (splitDot_ne_nil _)
      | cons s ss =>
        have hss : ss ≠ [] := by
          have hlen := splitDot_dot_append_length r m
          rw [hs] at hlen
          cases ss with
          | nil => simp at hlen
          | cons a t => simp
        rw [hs, List.getLastD_cons] at ih
        rw [List.cons_append]
        simp only [splitDot]
        rw [if_neg h, hs]
        have e2 : consHead c (s :: ss) = (c :: s) :: ss := rfl
        rw [e2, List.getLastD_cons, getLastD_irrel ss hss (c :: s) s]
        exact ih

theorem splitDot_no_dot (l : List Char) (h : ∀ c ∈ l, c ≠ '.') : splitDot l = [l] := by
  induction l with
  | nil => rfl
  | cons c rest ih =>
    have hc : c ≠ '.' := h c (by simp)
    have hrest : ∀ x ∈ rest, x ≠ '.' := fun x hx => h x (by simp [hx])
    simp [splitDot, hc, ih hrest, consHead]

theorem lastDot_qualified (r m : String) (h : ∀ c ∈ m.data, c ≠ '.') :
    lastDot (r ++ "." ++ m) = m := by
  have hd : (r ++ "." ++ m).data = r.data ++ '.' :: m.data := by
    simp [String.data_append]
  rw [lastDot, hd, splitDot_dot_append_getLastD, splitDot_no_dot m.data h]
  rfl

theorem hasPycSub_cons_eq_false (c : Char) (rest : List Char)
    (h : hasPycSub (c :: rest) = false) : hasPycSub rest = false := by
  rw [hasPycSub.eq_def] at h
  split at h
  · exact absurd h (by simp)
  · rename_i heq
    injection heq with h1 h2
    rw [h2]
    exact h
  · rename_i heq
    simp at heq

theorem replacePyc_eq_self (l : List Char) (h : hasPycSub l = false) : replacePyc l = l := by
  induction l with
  | nil => rfl
  | cons c rest ih =>
    rw [replacePyc.eq_def]
    split
    · rename_i rest2 heq
      rw [heq] at h
      simp [hasPycSub] at h
    · rename_i heq
      injection heq with h1 h2
      subst h1
      subst h2
      rw [ih (hasPycSub_cons_eq_false _ _ h)]
    · rename_i heq
      simp at heq

theorem filter_map_pairs (join : String → String) (fs : List String) :
    ((fs.map fun f => (join f, f)).filter fun pr => !pyStartsWith pr.2 ".").map Prod.fst
      = (fs.filter fun f => !pyStartsWith f ".").map join := by
  induction fs with
  | nil => rfl
  | cons f t ih =>
    by_cases h : pyStartsWith f "." = true <;> simp [h, ih]

theorem expandTuples_cons (t : String × List String) (ts : List (String × List String)) :
    expandTuples (t :: ts)
      = ((t.2.filter fun f => !pyStartsWith f ".").map fun f => posixJoin2 t.1 f)
        ++ expandTuples ts := by
  simp [expandTuples]

theorem expandTuples_append (a b : List (String × List String)) :
    expandTuples (a ++ b) = expandTuples a ++ expandTuples b := by
  simp [expandTuples]

theorem expandTuples_walkChildren : (path : String) → (cs : EntryList) →
    expandTuples (walkChildren path cs)
      = ((subtreeFilesAux path cs).filter fun pr => !pyStartsWith pr.2 ".").map Prod.fst
  | _, EntryList.nil => rfl
  | path, EntryList.cons (Entry.file n) rest => by
    simpa [walkChildren, subtreeFilesAux] using expandTuples_walkChildren path rest
  | path, EntryList.cons (Entry.dir n cs) rest => by
    have h1 := expandTuples_walkChildren (posixJoin2 path n) cs
    have h2 := expandTuples_walkChildren path rest
    rw [walkChildren, subtreeFilesAux, expandTuples_append, expandTuples_cons, h1, h2]
    simp [List.filter_append, List.map_append, filter_map_pairs]

theorem expandDir_spec (g : String) (cs : EntryList) :
    expandDir g cs
      = ((subtreeFiles g cs).filter fun pr => !pyStartsWith pr.2 ".").map Prod.fst := by
  rw [expandDir, walkDir, expandTuples_cons, expandTuples_walkChildren, subtreeFiles]
  simp [List.filter_append, List.map_append, filter_map_pairs]

/-! ### Claim theorems -/

/-- Claim C1 — refuted by the code (code bug): the exit status should be 0
iff every executed unit Passed or Skipped, but the script discards the
result of `TextTestRunner(...).run(suite)` and simply ends, so the
interpreter exits with status 0 even when a unit Failed or Errored. -/
theorem exit_status_ignores_outcomes :
    (∀ results : List Outcome, processExitCode results = 0) ∧
    processExitCode [Outcome.failed] = 0 ∧
    processExitCode [Outcome.errored] = 0 ∧
    runSummaryAllPassed [Outcome.failed] = false ∧
    runSummaryAllPassed [Outcome.errored] = false :=
  ⟨fun _ => rfl, rfl, rfl, rfl, rfl⟩

/-- Claim C2: with a non-empty `files` selection, `shouldIncludeTestFile`
accepts a path exactly when its normalized form is literally one of the
selected files — the decision never looks at the `method` selection. -/
theorem files_selection_exact_match (cwd : String) (args : Args) (p : String)
    (hf : args.files ≠ []) :
    (shouldIncludeTestFile cwd args p = true ↔ fnameOf cwd p ∈ args.files) ∧
    (∀ ms : List String,
      shouldIncludeTestFile cwd ⟨args.files, ms, args.keep, args.verbosity⟩ p
        = shouldIncludeTestFile cwd args p) := by
  constructor
  · simp only [shouldIncludeTestFile, if_pos hf]
    exact List.elem_iff
  · intro ms
    simp only [shouldIncludeTestFile]
    rw [if_pos hf, if_pos hf]

/-- Witness for C2: the exact file `tests/t.py` is accepted, while the
near-miss `other/t.py` (same basename, different directory) is not. -/
theorem files_selection_exact_match_witness :
    shouldIncludeTestFile "/w" ⟨["tests/t.py"], [], false, 2⟩ "/w/tests/t.py" = true ∧
    shouldIncludeTestFile "/w" ⟨["tests/t.py"], [], false, 2⟩ "/w/other/t.py" = false := by
  constructor
  · exact (files_selection_exact_match "/w" ⟨["tests/t.py"], [], false, 2⟩ "/w/tests/t.py"
      (by decide)).1.mpr (by decide)
  · have h := (files_selection_exact_match "/w" ⟨["tests/t.py"], [], false, 2⟩ "/w/other/t.py"
      (by decide)).1
    cases hb : shouldIncludeTestFile "/w" ⟨["tests/t.py"], [], false, 2⟩ "/w/other/t.py"
    · rfl
    · exact absurd (h.mp hb) (by decide)

/-- Claim C3: when both the `files` and the `method` selections are empty,
both inclusion predicates accept every input. -/
theorem empty_criteria_no_restriction (cwd : String) (args : Args) (p n : String)
    (hf : args.files = []) (hm : args.method = []) :
    shouldIncludeTestFile cwd args p = true ∧ shouldIncludeTestName args n = true := by
  constructor
  · simp [shouldIncludeTestFile, hf, hm]
  · simp [shouldIncludeTestName, hm]

/-- Witness for C3 at a non-`.py` path and a dotted name. -/
theorem empty_criteria_no_restriction_witness :
    shouldIncludeTestFile "/w" ⟨[], [], false, 2⟩ "tests/unit.t" = true ∧
    shouldIncludeTestName ⟨[], [], false, 2⟩ "TestCase.testFoo" = true :=
  empty_criteria_no_restriction "/w" ⟨[], [], false, 2⟩ "tests/unit.t" "TestCase.testFoo" rfl rfl

/-- Claim C4: with a non-empty `method` selection, a qualified name is
included exactly when its final dot-component is one of the listed method
names, whatever qualifying prefix stands before the last dot. -/
theorem method_selection_last_component (args : Args) (q : String)
    (hm : args.method ≠ []) :
    (shouldIncludeTestName args q = true ↔ lastDot q ∈ args.method) ∧
    (∀ r m : String, (∀ c ∈ m.data, c ≠ '.') →
      (shouldIncludeTestName args (r ++ "." ++ m) = true ↔ m ∈ args.method)) := by
  constructor
  · simp only [shouldIncludeTestName, if_pos hm]
    exact List.elem_iff
  · intro r m hnd
    simp only [shouldIncludeTestName, if_pos hm, lastDot_qualified r m hnd]
    exact List.elem_iff

/-- Witness for C4: `module.TestCase.testFoo` matches method `testFoo`,
with the same name accepted under a different prefix as well. -/
theorem method_selection_last_component_witness :
    shouldIncludeTestName ⟨[], ["testFoo"], false, 2⟩ "module.TestCase.testFoo" = true ∧
    shouldIncludeTestName ⟨[], ["testFoo"], false, 2⟩ "other.Prefix.testFoo" = true := by
  constructor
  · exact (method_selection_last_component ⟨[], ["testFoo"], false, 2⟩
      "module.TestCase.testFoo" (by decide)).1.mpr (by decide)
  · exact ((method_selection_last_component ⟨[], ["testFoo"], false, 2⟩
      "other.Prefix.testFoo" (by decide)).2 "other.Prefix" "testFoo" (by decide)).mpr
      (by decide)

/-- Claim C5: with empty `files` and non-empty `method`, a path is included
exactly when its normalized form ends in the native `.py` extension. -/
theorem method_only_native_files (cwd : String) (args : Args) (p : String)
    (hf : args.files = []) (hm : args.method ≠ []) :
    shouldIncludeTestFile cwd args p = true ↔ pyEndsWith (fnameOf cwd p) ".py" = true := by
  simp [shouldIncludeTestFile, hf, hm]

/-- Witness for C5: a `.py` file is kept, a `.t` script is not. -/
theorem method_only_native_files_witness :
    shouldIncludeTestFile "/w" ⟨[], ["testFoo"], false, 2⟩ "/w/tests/t.py" = true ∧
    shouldIncludeTestFile "/w" ⟨[], ["testFoo"], false, 2⟩ "/w/tests/unit.t" = false := by
  constructor
  · exact (method_only_native_files "/w" ⟨[], ["testFoo"], false, 2⟩ "/w/tests/t.py"
      rfl (by decide)).mpr (by decide)
  · have h := method_only_native_files "/w" ⟨[], ["testFoo"], false, 2⟩ "/w/tests/unit.t"
      rfl (by decide)
    cases hb : shouldIncludeTestFile "/w" ⟨[], ["testFoo"], false, 2⟩ "/w/tests/unit.t"
    · rfl
    · exact absurd (h.mp hb) (by decide)

/-- Claim C6: expansion maps each directory selector to every file of the
directory's recursive subtree whose basename does not begin with `.`, in
traversal order, and passes every other selector — nonexistent paths
included — through unchanged; no selector can fail.  Concretely, a
directory `d` holding `a.py`, `.hidden` and `sub/b.py` expands to
`[d/a.py, d/sub/b.py]`. -/
theorem expand_files_list_spec :
    (∀ (fs : List (String × EntryList)) (sel : List String),
      expandFilesList fs sel sel = sel.flatMap fun g => specExpandOne fs g) ∧
    expandFilesList
        [("d", EntryList.cons (Entry.file "a.py")
            (EntryList.cons (Entry.file ".hidden")
              (EntryList.cons
                (Entry.dir "sub" (EntryList.cons (Entry.file "b.py") EntryList.nil))
                EntryList.nil)))]
        ["d"] ["d"]
      = ["d/a.py", "d/sub/b.py"] := by
  constructor
  · intro fs sel
    induction sel with
    | nil => rfl
    | cons g t ih =>
      simp only [expandFilesList, List.flatMap_cons] at ih ⊢
      rw [ih]
      cases h : lookupDir fs g <;> simp [h, expandDir_spec, specExpandOne]
  · decide

/-- Claim C7 counterexample: `dir.pyc/test.py` does not end in `.pyc`, yet
normalization rewrites its directory component — `replace('.pyc', '.py')`
rewrites every occurrence, not only a trailing one, so the claim that a
path not ending in `.pyc` has only the relativization applied is false. -/
theorem normalization_not_suffix_only :
    pyEndsWith "dir.pyc/test.py" ".pyc" = false ∧
    fnameOf "/w" "dir.pyc/test.py" = "dir.py/test.py" ∧
    relpath "/w" "dir.pyc/test.py" = "dir.pyc/test.py" ∧
    fnameOf "/w" "dir.pyc/test.py" ≠ relpath "/w" "dir.pyc/test.py" :=
  ⟨by decide, by decide, by decide, by decide⟩

/-- Claim C7 as amended: the normalization replaces every left-to-right,
non-overlapping occurrence of `.pyc` in the path by `.py` — wherever it
occurs, not only as a suffix — and then makes the path relative to the
working directory; a path containing no occurrence of `.pyc` at all has
only the relativization applied. -/
theorem normalization_replaces_every_occurrence (cwd p : String)
    (h : hasPycSub p.data = false) :
    fnameOf cwd p = relpath cwd p ∧
    fnameOf cwd "dir.pyc/test.py" = relpath cwd "dir.py/test.py" ∧
    fnameOf cwd "test.pyc" = relpath cwd "test.py" := by
  refine ⟨?_, ?_, ?_⟩
  · show relpath cwd (String.mk (replacePyc p.data)) = relpath cwd p
    rw [replacePyc_eq_self p.data h]
  · rw [fnameOf]
    have e : pycToPy "dir.pyc/test.py" = "dir.py/test.py" := by decide
    rw [e]
  · rw [fnameOf]
    have e : pycToPy "test.pyc" = "test.py" := by decide
    rw [e]

/-- Witness for amended C7 at a path free of `.pyc`. -/
theorem normalization_replaces_every_occurrence_witness :
    fnameOf "/w" "tests/unit.py" = relpath "/w" "tests/unit.py" :=
  (normalization_replaces_every_occurrence "/w" "tests/unit.py" (by decide)).1

/-- Claim C8: every terminal notification emits exactly one print, whose
text is the colored status token of the outcome class (green PASS for
success, red FAIL for both failure and error, yellow SKIP for a skip),
the flavoured test identifier (annotated with transport and encoding
exactly when a transport flavour is set), the elapsed time since the
unit's start rendered to millisecond precision, then the full formatted
exception text for failures and errors, or the reason string for skips. -/
theorem reporter_emits_one_colored_line (r : ResultState) (testId : String) (now : Nat)
    (k : TerminalKind) :
    (emit r testId now k).length = 1 ∧
    (∀ tb, emit r testId now (TerminalKind.failure tb)
      = emit r testId now (TerminalKind.error tb)) ∧
    emit r testId now TerminalKind.success
      = [statusToken TerminalKind.success ++ " " ++ flavour r testId ++ " ("
          ++ fmtElapsed (now - r.startTime) ++ "s)"] ∧
    (∀ tb, emit r testId now (TerminalKind.failure tb)
      = [statusToken (TerminalKind.failure tb) ++ " " ++ flavour r testId ++ " ("
          ++ fmtElapsed (now - r.startTime) ++ "s)\n" ++ tb]) ∧
    (∀ reason, emit r testId now (TerminalKind.skipped reason)
      = [statusToken (TerminalKind.skipped reason) ++ " " ++ flavour r testId ++ " ("
          ++ fmtElapsed (now - r.startTime) ++ "s) " ++ reason]) ∧
    flavour r testId
      = (if pyTruthyOpt r.transport then
          testId ++ " [" ++ renderOpt r.transport ++ ", " ++ renderOpt r.encoding ++ "]"
        else testId) ∧
    fmtElapsed 12345 = "12.345" := by
  refine ⟨?_, fun tb => rfl, rfl, fun tb => rfl, fun reason => rfl, rfl, by decide⟩
  cases k <;> rfl

/-- Claim C9: without `--keep` the registered exit action deletes the
sandbox root; with `--keep` the only registered action prints the
preserved path, and no deletion of any path is ever registered. -/
theorem sandbox_teardown_exit_actions (keep : Bool) (td : String) :
    (keep = false → registerTeardown keep td = [ExitAction.removeTree td]) ∧
    (keep = true →
      registerTeardown keep td
          = [ExitAction.writeMsg ("Preserving output in " ++ td ++ "\n")] ∧
      ∀ p : String, ExitAction.removeTree p ∉ registerTeardown keep td) := by
  constructor
  · intro h
    subst h
    rfl
  · intro h
    subst h
    refine ⟨rfl, ?_⟩
    intro p hp
    rw [registerTeardown] at hp
    simp at hp

/-- Witness for C9 at a concrete sandbox path, in both modes. -/
theorem sandbox_teardown_exit_actions_witness :
    registerTeardown false "/tmp/watchmantest42"
        = [ExitAction.removeTree "/tmp/watchmantest42"] ∧
    registerTeardown true "/tmp/watchmantest42"
        = [ExitAction.writeMsg "Preserving output in /tmp/watchmantest42\n"] := by
  constructor
  · exact (sandbox_teardown_exit_actions false "/tmp/watchmantest42").1 rfl
  · exact (((sandbox_teardown_exit_actions true "/tmp/watchmantest42").2 rfl).1).trans
      (by decide)

/-- Claim C10: `expandFilesList` never reads its ` files` parameter — its
result is the expansion of the global `args.files` it closes over, so two
calls under the same global configuration agree whatever arguments they
are passed. -/
theorem expand_files_list_ignores_argument :
    (∀ (fs : List (String × EntryList)) (argsFiles f₁ f₂ : List String),
      expandFilesList fs argsFiles f₁ = expandFilesList fs argsFiles f₂) ∧
    (∀ (fs : List (String × EntryList)) (argsFiles f : List String),
      expandFilesList fs argsFiles f = expandFilesList fs argsFiles argsFiles) ∧
    expandFilesList [] ["a"] ["b"] = ["a"] ∧
    expandFilesList [] ["a"] ["b"] ≠ ["b"] := by
  refine ⟨fun _ _ _ _ => rfl, fun _ _ _ => rfl, rfl, by decide⟩

end Runtests
